import Mathlib

/-!
Shallow embedding of the tracee event pipeline (`pipeline.go` of the
`tracee` package) together with proofs about its per-stage behaviour.

The pipeline stages are modelled as pure functions over lists: every
inter-stage Go channel has exactly one producer and one consumer and
preserves delivery order, so a stage worker is embedded as a list
traversal that produces the ordered sequence of values the stage sends on
its output channel, together with the ordered sequence of errors it sends
on its error channel.  External collaborators (the binary argument
decoding primitive, the policy predicates and hooks, the name tables, the
BPF stack-trace map, the event constructor) are fields of the `Tracee`
structure, mirroring the methods and fields the Go code calls on `t`.
Go run-time panics (out-of-range slice indexing) are modelled by `Option`
results, `none` standing for a panic.
-/

/-- `argTag`: small opaque identifier of an argument slot.  The Go type is
a fixed-size integer whose zero value is `0`. -/
abbrev argTag := Nat

/-- A decoded argument value.  The Go code stores `interface` values and
never inspects them, so an opaque numeric payload is enough. -/
abbrev ArgVal := Nat

/-- Errors sent on the per-stage error channels. -/
abbrev Err := String

/-- Position of the shared read cursor of `bytes.NewBuffer(dataRaw)`. -/
abbrev Cursor := Nat

/-- An opaque handle for one raw byte buffer received on `t.eventsChannel`. -/
abbrev RawBuffer := Nat

/-- `map[argTag]interface` with Go map semantics: association list with
insert-overwrite and `Option` lookup. -/
abbrev ArgMap := List (argTag × ArgVal)

/-- The fixed-size event header `context`.  `pipeline.go` reads the fields
`EventID`, `Argnum` and `StackID`; the remaining fields are fixed metadata
(modelled from the spec: timestamp and process/thread ids, opaque
pass-through data). -/
structure context where
  timestamp : Nat
  processID : Nat
  threadID : Nat
  eventID : Nat
  argnum : Nat
  stackID : Nat
  deriving DecidableEq, Repr

/-- `RawEvent`: header, tag-to-value mapping, ordered tag sequence. -/
structure RawEvent where
  ctx : context
  rawArgs : ArgMap
  argsTags : List argTag
  deriving DecidableEq, Repr

/-- The final printable record (`Event` built by `newEvent`), modelled
from the spec: context fields, ordered argument names, ordered argument
values, stack-trace string.  An absent tag in the mapping yields a `none`
value slot (Go: the `nil` zero value of an interface). -/
structure Event where
  ctx : context
  argsNames : List String
  args : List (Option ArgVal)
  stackTrace : String
  deriving DecidableEq, Repr

/-- The `Tracee` receiver: every external collaborator called by
`pipeline.go` is a field.  `decodeHeader` stands for
`binary.Read(dataBuff, binary.LittleEndian, &ctx)` and returns the cursor
position after the fixed-size header; `readArgFromBuff` consumes one
tagged argument from the shared cursor and returns the new cursor in both
the success and the failure case; `stackTracesMap` is the result of
`t.bpfModule.GetMap("stack_traces")` (`none` when `GetMap` fails), a map
object whose `GetValue(key, size)` is modelled as a function of the key
and the requested byte count. -/
structure Tracee where
  decodeHeader : RawBuffer → Except Err (context × Cursor)
  readArgFromBuff : Cursor → Except Err (argTag × ArgVal) × Cursor
  shouldProcessEvent : RawEvent → Bool
  processEvent : context → ArgMap → Except Err (context × ArgMap)
  shouldPrintEvent : RawEvent → Bool
  prepareArgsForPrint : context → ArgMap → Except Err (context × ArgMap)
  DecParamName : Nat → argTag → Option String
  newEvent : context → List String → List (Option ArgVal) → String → Except Err Event
  stackTracesMap : Option (Nat → Nat → Option (List Nat))

/-- Go map lookup: `m[k]` with `ok` reported through `Option`. -/
def mapLookup : ArgMap → argTag → Option ArgVal
  | [], _ => none
  | (k, v) :: m, k2 => if k2 = k then some v else mapLookup m k2

/-- Go map update `m[k] = v`: overwrite an existing key, otherwise add. -/
def mapInsert : ArgMap → argTag → ArgVal → ArgMap
  | [], k, v => [(k, v)]
  | (k2, v2) :: m, k, v =>
    if k = k2 then (k, v) :: m else (k2, v2) :: mapInsert m k v

/-- Fold a sequence of insertions into a map. -/
def insertList (m : ArgMap) (ps : List (argTag × ArgVal)) : ArgMap :=
  ps.foldl (fun acc p => mapInsert acc p.1 p.2) m

/-- Cursor position after `i` calls of `readArgFromBuff`, starting at
`cur`.  The cursor advances on failures too (a failed read still consumes
whatever it read from the shared `bytes.Buffer`). -/
def cursorAfter (ra : Cursor → Except Err (argTag × ArgVal) × Cursor) (cur : Cursor) : Nat → Cursor
  | 0 => cur
  | i + 1 => (ra (cursorAfter ra cur i)).2

/-- Outcome of the `i`-th argument read of the decode loop. -/
def slotRes (ra : Cursor → Except Err (argTag × ArgVal) × Cursor) (cur : Cursor) (i : Nat) :
    Except Err (argTag × ArgVal) :=
  (ra (cursorAfter ra cur i)).1

/-- Tag stored in slot `i` of `argsTags`: the decoded tag on success, the
zero value of `argTag` when the read failed (the pre-allocated slot of
`make([]argTag, ctx.Argnum)` is never overwritten in that case). -/
def slotTag (ra : Cursor → Except Err (argTag × ArgVal) × Cursor) (cur : Cursor) (i : Nat) : argTag :=
  match slotRes ra cur i with
  | .ok tv => tv.1
  | .error _ => 0

/-- Error emitted by the `i`-th iteration of the decode loop, if any. -/
def slotErr (ra : Cursor → Except Err (argTag × ArgVal) × Cursor) (cur : Cursor) (i : Nat) :
    Option Err :=
  match slotRes ra cur i with
  | .ok _ => none
  | .error e => some e

/-- Result of the argument-decoding loop of `decodeRawEvent`. -/
structure DecodedArgs where
  tags : List argTag
  args : ArgMap
  errs : List Err
  cur : Cursor
  deriving Repr

/-- The loop `for i := 0; i < int(ctx.Argnum); i++` of `decodeRawEvent`:
read one tagged argument per iteration; on failure emit the error and
`continue` (the slot keeps the zero tag, the map is not updated, the next
iteration reads from the cursor left by the failed read). -/
def decodeArgsLoop (ra : Cursor → Except Err (argTag × ArgVal) × Cursor) :
    Nat → Cursor → ArgMap → DecodedArgs
  | 0, cur, m => ⟨[], m, [], cur⟩
  | n + 1, cur, m =>
    match ra cur with
    | (.ok (tag, val), cur2) =>
      let r := decodeArgsLoop ra n cur2 (mapInsert m tag val)
      ⟨tag :: r.tags, r.args, r.errs, r.cur⟩
    | (.error e, cur2) =>
      let r := decodeArgsLoop ra n cur2 m
      ⟨0 :: r.tags, r.args, e :: r.errs, r.cur⟩

/-- Body of `decodeRawEvent` for one raw buffer: decode the header (on
failure emit the error and produce no event), then run the argument loop
and emit the completed `RawEvent`. -/
def decodeRawEventOne (t : Tracee) (buf : RawBuffer) : Option RawEvent × List Err :=
  match t.decodeHeader buf with
  | .error e => (none, [e])
  | .ok (ctx, cur) =>
    let r := decodeArgsLoop t.readArgFromBuff ctx.argnum cur []
    (some ⟨ctx, r.args, r.tags⟩, r.errs)

/-- The Decoder stage `decodeRawEvent`: ordered events sent on `out` and
ordered errors sent on `errc`, over the whole inbound buffer stream. -/
def decodeRawEvent (t : Tracee) : List RawBuffer → List RawEvent × List Err
  | [] => ([], [])
  | b :: bs =>
    ((decodeRawEventOne t b).1.toList ++ (decodeRawEvent t bs).1,
     (decodeRawEventOne t b).2 ++ (decodeRawEvent t bs).2)

/-- Body of `processRawEvent` for one event: predicate, then mutation
hook.  The third component counts the invocations of the mutation hook
`t.processEvent` performed for this event. -/
def processRawEventOne (t : Tracee) (ev : RawEvent) : Option RawEvent × List Err × Nat :=
  if t.shouldProcessEvent ev then
    match t.processEvent ev.ctx ev.rawArgs with
    | .error e => (none, [e], 1)
    | .ok (ctx2, m2) => (some ⟨ctx2, m2, ev.argsTags⟩, [], 1)
  else (none, [], 0)

/-- The Filter/Processor stage `processRawEvent` over a stream. -/
def processRawEvent (t : Tracee) : List RawEvent → List RawEvent × List Err
  | [] => ([], [])
  | ev :: evs =>
    ((processRawEventOne t ev).1.toList ++ (processRawEvent t evs).1,
     (processRawEventOne t ev).2.1 ++ (processRawEvent t evs).2)

/-- Uppercase hexadecimal digit, as produced by the `%X` verb. -/
def hexDigit (n : Nat) : Char :=
  if n < 10 then Char.ofNat (48 + n) else Char.ofNat (55 + n)

/-- Uppercase hexadecimal digits of `n`, most significant first; fuel
recursion (`fuel ≥ n` is enough since the argument shrinks 16-fold). -/
def hexUpperAux : Nat → Nat → List Char
  | 0, _ => []
  | _ + 1, 0 => []
  | fuel + 1, n + 1 => hexUpperAux fuel ((n + 1) / 16) ++ [hexDigit ((n + 1) % 16)]

/-- `fmt.Sprintf("%X", n)` as a character list. -/
def hexChars (n : Nat) : List Char :=
  if n = 0 then ['0'] else hexUpperAux n n

/-- `fmt.Sprintf("0x%X", a)` as a character list. -/
def renderWord (a : Nat) : List Char :=
  '0' :: 'x' :: hexChars a

/-- The string built by the rendering loop of `getStackTrace`:
`StackTrace += fmt.Sprintf("0x%X,", stackAddr)` for every decoded word. -/
def commaJoin (ws : List Nat) : List Char :=
  (ws.map (fun a => renderWord a ++ [','])).flatten

/-- `strings.TrimSuffix(s, ",")` (the suffix is a single character). -/
def trimSuffixComma (cs : List Char) : List Char :=
  if cs.getLast? = some ',' then cs.dropLast else cs

/-- Plain comma interleaving, the specification-side description of
"joined by commas with no trailing comma". -/
def commaIntercalate : List (List Char) → List Char
  | [] => []
  | [s] => s
  | s :: s2 :: rest => s ++ ',' :: commaIntercalate (s2 :: rest)

/-- The trace string rendered from the decoded addresses. -/
def renderStack (ws : List Nat) : String :=
  String.mk (trimSuffixComma (commaJoin ws))

/-- `binary.LittleEndian.Uint64(bs)`: combines the first 8 bytes; Go
panics when fewer than 8 bytes are available (`none`). -/
def leUint64 (bs : List Nat) : Option Nat :=
  if bs.length < 8 then none
  else
    some (bs.getD 0 0 + bs.getD 1 0 * 256 + bs.getD 2 0 * 65536 +
      bs.getD 3 0 * 16777216 + bs.getD 4 0 * 4294967296 +
      bs.getD 5 0 * 1099511627776 + bs.getD 6 0 * 281474976710656 +
      bs.getD 7 0 * 72057594037927936)

/-- One iteration of the decode loop of `getStackTrace`: slice
`stackBytes[i : i+stackFrameSize]` (panic when it runs past the end),
then `binary.LittleEndian.Uint64` on that slice (panic when the slice is
shorter than 8 bytes). -/
def stackStep (frameSize : Nat) (bs : List Nat) : Option Nat :=
  if bs.length < frameSize then none else leUint64 (bs.take frameSize)

/-- The decode loop of `getStackTrace` (`for i := 0; i < len(stackBytes);
i += stackFrameSize`): collect addresses until the zero sentinel or the
end of the buffer; `none` models a panic.  Fuel recursion: each step
consumes at least one byte when `frameSize ≥ 1`, so fuel equal to the
buffer length is enough. -/
def stackWordsAux (frameSize : Nat) : Nat → List Nat → Option (List Nat)
  | 0, bs => if bs = [] then some [] else none
  | fuel + 1, bs =>
    if bs = [] then some []
    else
      match stackStep frameSize bs with
      | none => none
      | some a =>
        if a = 0 then some []
        else (stackWordsAux frameSize fuel (bs.drop frameSize)).map (fun ws => a :: ws)

/-- Addresses decoded from a stack buffer. -/
def stackWords (frameSize : Nat) (bs : List Nat) : Option (List Nat) :=
  stackWordsAux frameSize bs.length bs

/-- Decode a stack buffer and render the trace string (`none` = panic). -/
def resolveStackBytes (frameSize : Nat) (bs : List Nat) : Option String :=
  (stackWords frameSize bs).map renderStack

/-- Little-endian 8-byte encoding of one stack word. -/
def encodeWord (w : Nat) : List Nat :=
  [w % 256, w / 256 % 256, w / 65536 % 256, w / 16777216 % 256,
   w / 4294967296 % 256, w / 1099511627776 % 256,
   w / 281474976710656 % 256, w / 72057594037927936 % 256]

/-- Little-endian byte buffer holding the given stack words. -/
def encodeWords (ws : List Nat) : List Nat :=
  (ws.map encodeWord).flatten

/-- `getStackTrace`: `intSize` is `strconv.IntSize` (the platform pointer
width in bits), so `stackFrameSize = intSize / 8`.  Both lookup failures
return `("", nil)`; a decode panic is `none`. -/
def getStackTrace (t : Tracee) (intSize : Nat) (stackID : Nat) : Option (String × Option Err) :=
  let stackFrameSize := intSize / 8
  let maxStackDepth := 20
  match t.stackTracesMap with
  | none => some ("", none)
  | some getValue =>
    match getValue stackID (stackFrameSize * maxStackDepth) with
    | none => some ("", none)
    | some stackBytes =>
      match resolveStackBytes stackFrameSize stackBytes with
      | none => none
      | some s => some (s, none)

/-- `fmt.Errorf("Invalid arg tag for event %d", EventID)`. -/
def invalidTagMsg (id : Nat) : Err :=
  "Invalid arg tag for event " ++ toString id

/-- The name table consulted by `prepareEventForPrint`:
`t.DecParamName[rawEvent.Ctx.EventID%2]` — selected solely by the parity
of the event identifier. -/
def selectNameTable (t : Tracee) (c : context) : argTag → Option String :=
  t.DecParamName (c.eventID % 2)

/-- Result of the name-resolution loop of `prepareEventForPrint`. -/
structure BuildRes where
  args : List (Option ArgVal)
  names : List String
  errs : List Err
  deriving DecidableEq, Repr

/-- The loop `for i, tag := range rawEvent.ArgsTags`: writes
`args[i] = rawEvent.RawArgs[tag]`, then resolves the display name; an
unresolvable tag emits an error and leaves the name slot at its zero
value `""` while the loop continues.  Writing at `i ≥ argnum` is an
out-of-range panic on the pre-sized arrays (`none`). -/
def resolveLoop (table : argTag → Option String) (id : Nat) (m : ArgMap) :
    List argTag → Nat → Nat → Option BuildRes
  | [], _, _ => some ⟨[], [], []⟩
  | tag :: rest, i, argnum =>
    if i < argnum then
      match resolveLoop table id m rest (i + 1) argnum with
      | none => none
      | some r =>
        match table tag with
        | some nm => some ⟨mapLookup m tag :: r.args, nm :: r.names, r.errs⟩
        | none => some ⟨mapLookup m tag :: r.args, "" :: r.names, invalidTagMsg id :: r.errs⟩
    else none

/-- The argument/name array construction of `prepareEventForPrint`:
`args := make([]interface, Argnum)` and `argsNames := make([]string,
Argnum)` are pre-sized by the header's argument count (slots the loop
never reaches keep their zero values), then filled by `resolveLoop`. -/
def buildArgs (table : argTag → Option String) (id argnum : Nat) (tags : List argTag)
    (m : ArgMap) : Option BuildRes :=
  match resolveLoop table id m tags 0 argnum with
  | none => none
  | some r =>
    some ⟨r.args ++ List.replicate (argnum - tags.length) none,
      r.names ++ List.replicate (argnum - tags.length) "", r.errs⟩

/-- Body of `prepareEventForPrint` for one event: print predicate,
formatting hook, name resolution, stack trace (its error is discarded),
`newEvent`, forward.  `none` models a panic inside the body. -/
def prepareEventForPrintOne (t : Tracee) (intSize : Nat) (ev : RawEvent) :
    Option (Option Event × List Err) :=
  if t.shouldPrintEvent ev then
    match t.prepareArgsForPrint ev.ctx ev.rawArgs with
    | .error e => some (none, [e])
    | .ok (ctx2, m2) =>
      match buildArgs (selectNameTable t ctx2) ctx2.eventID ctx2.argnum ev.argsTags m2 with
      | none => none
      | some r =>
        match getStackTrace t intSize ctx2.stackID with
        | none => none
        | some (st, _) =>
          match t.newEvent ctx2 r.names r.args st with
          | .error e => some (none, r.errs ++ [e])
          | .ok evt => some (some evt, r.errs)
  else some (none, [])

/-- The Print Preparer stage `prepareEventForPrint` over a stream. -/
def prepareEventForPrint (t : Tracee) (intSize : Nat) : List RawEvent → Option (List Event × List Err)
  | [] => some ([], [])
  | ev :: evs =>
    match prepareEventForPrintOne t intSize ev with
    | none => none
    | some (oe, es) =>
      match prepareEventForPrint t intSize evs with
      | none => none
      | some pr => some (oe.toList ++ pr.1, es ++ pr.2)

/-- Event contribution of the Print Preparer for one inbound event (panic
collapsed to `none`; used to state stream-level equalities). -/
def prepOut (t : Tracee) (intSize : Nat) (ev : RawEvent) : Option Event :=
  match prepareEventForPrintOne t intSize ev with
  | none => none
  | some (oe, _) => oe

/-- End-to-end fate of one raw buffer: the Final Event it contributes to
the Sink, if it survives every stage. -/
def stepEvent (t : Tracee) (intSize : Nat) (buf : RawBuffer) : Option Event :=
  ((decodeRawEventOne t buf).1.bind fun ev =>
    (processRawEventOne t ev).1.bind fun ev2 => prepOut t intSize ev2)

/-- `runEventPipeline`, restricted to the ordered sequence of Final
Events the Sink renders (`t.printer.Print` consumes its input channel in
delivery order).  `none` models a panic in some stage worker. -/
def runEventPipeline (t : Tracee) (intSize : Nat) (bufs : List RawBuffer) :
    Option (List Event) :=
  (prepareEventForPrint t intSize (processRawEvent t (decodeRawEvent t bufs).1).1).map
    (fun pr => pr.1)

/-! Sample collaborator instances, used as concrete inputs by witnesses
and counterexamples. -/

/-- A header whose declared argument count is 2. -/
def cexCtx : context :=
  { timestamp := 0, processID := 0, threadID := 0, eventID := 1, argnum := 2, stackID := 0 }

/-- A `Tracee` whose raw source decodes a valid header with two declared
arguments, whose first argument read succeeds with tag 5 and whose second
read fails. -/
def cexTracee : Tracee where
  decodeHeader := fun _ => .ok (cexCtx, 0)
  readArgFromBuff := fun c => if c = 0 then (.ok (5, 7), 1) else (.error "bad", c + 1)
  shouldProcessEvent := fun _ => true
  processEvent := fun c m => .ok (c, m)
  shouldPrintEvent := fun _ => true
  prepareArgsForPrint := fun c m => .ok (c, m)
  DecParamName := fun _ _ => some "arg"
  newEvent := fun c ns vs st => .ok ⟨c, ns, vs, st⟩
  stackTracesMap := none

/-- A header whose declared argument count is 2 (all-valid decode). -/
def okCtx : context :=
  { timestamp := 3, processID := 1, threadID := 1, eventID := 4, argnum := 2, stackID := 9 }

/-- A `Tracee` whose two argument reads both succeed, with distinct tags
3 and 4. -/
def okTracee : Tracee where
  decodeHeader := fun _ => .ok (okCtx, 0)
  readArgFromBuff := fun c => (.ok (c + 3, c * 10), c + 1)
  shouldProcessEvent := fun _ => true
  processEvent := fun c m => .ok (c, m)
  shouldPrintEvent := fun _ => true
  prepareArgsForPrint := fun c m => .ok (c, m)
  DecParamName := fun _ _ => some "arg"
  newEvent := fun c ns vs st => .ok ⟨c, ns, vs, st⟩
  stackTracesMap := none

/-- Header for the unresolvable-name scenario: event identifier 5. -/
def ctx5 : context :=
  { timestamp := 0, processID := 0, threadID := 0, eventID := 5, argnum := 2, stackID := 0 }

/-- An inbound event with tags 1 and 5 for the Print Preparer. -/
def ev5 : RawEvent :=
  ⟨ctx5, [(1, 10), (5, 20)], [1, 5]⟩

/-- A `Tracee` whose name table resolves tag 1 but not tag 5. -/
def missTracee : Tracee where
  decodeHeader := fun _ => .error "unused"
  readArgFromBuff := fun c => (.error "unused", c)
  shouldProcessEvent := fun _ => true
  processEvent := fun c m => .ok (c, m)
  shouldPrintEvent := fun _ => true
  prepareArgsForPrint := fun c m => .ok (c, m)
  DecParamName := fun _ tg => if tg = 1 then some "good" else none
  newEvent := fun c ns vs st => .ok ⟨c, ns, vs, st⟩
  stackTracesMap := none

/-- A `Tracee` whose process-stage mutation hook fails. -/
def hookFailTracee : Tracee where
  decodeHeader := fun _ => .error "unused"
  readArgFromBuff := fun c => (.error "unused", c)
  shouldProcessEvent := fun _ => true
  processEvent := fun _ _ => .error "boom"
  shouldPrintEvent := fun _ => true
  prepareArgsForPrint := fun c m => .ok (c, m)
  DecParamName := fun _ _ => some "arg"
  newEvent := fun c ns vs st => .ok ⟨c, ns, vs, st⟩
  stackTracesMap := none

/-- A `Tracee` whose process-stage predicate rejects every event. -/
def dropTracee : Tracee where
  decodeHeader := fun _ => .error "unused"
  readArgFromBuff := fun c => (.error "unused", c)
  shouldProcessEvent := fun _ => false
  processEvent := fun c m => .ok (c, m)
  shouldPrintEvent := fun _ => true
  prepareArgsForPrint := fun c m => .ok (c, m)
  DecParamName := fun _ _ => some "arg"
  newEvent := fun c ns vs st => .ok ⟨c, ns, vs, st⟩
  stackTracesMap := none

/-- A `Tracee` whose raw source yields header-only events (argument count
0), the event identifier being the buffer handle itself. -/
def pipeTracee : Tracee where
  decodeHeader := fun b =>
    .ok ({ timestamp := 0, processID := 0, threadID := 0, eventID := b, argnum := 0,
           stackID := 0 }, 0)
  readArgFromBuff := fun c => (.error "unused", c)
  shouldProcessEvent := fun _ => true
  processEvent := fun c m => .ok (c, m)
  shouldPrintEvent := fun _ => true
  prepareArgsForPrint := fun c m => .ok (c, m)
  DecParamName := fun _ _ => some "arg"
  newEvent := fun c ns vs st => .ok ⟨c, ns, vs, st⟩
  stackTracesMap := none

/-- Final Event produced by `pipeTracee` from buffer handle `b`. -/
def pipeEvt (b : Nat) : Event :=
  ⟨{ timestamp := 0, processID := 0, threadID := 0, eventID := b, argnum := 0, stackID := 0 },
   [], [], ""⟩

/-- A header that shares only the parity of its event identifier with
`okCtx` (every other field differs). -/
def ctxEven : context :=
  { timestamp := 70, processID := 71, threadID := 72, eventID := 20, argnum := 73, stackID := 74 }

/-- A stack-trace table: key 0 is missing, key 1 holds the 32-byte
little-endian buffer of the words 16, 32, 0, 48, key 2 holds an 80-byte
buffer (the size requested on a 32-bit platform). -/
def stackGetValue : Nat → Nat → Option (List Nat) := fun sid _ =>
  if sid = 1 then some (encodeWords [16, 32, 0, 48])
  else if sid = 2 then some (List.replicate 80 1)
  else none

/-- A `Tracee` holding the sample stack-trace table `stackGetValue`. -/
def stackTracee : Tracee where
  decodeHeader := fun _ => .error "unused"
  readArgFromBuff := fun c => (.error "unused", c)
  shouldProcessEvent := fun _ => true
  processEvent := fun c m => .ok (c, m)
  shouldPrintEvent := fun _ => true
  prepareArgsForPrint := fun c m => .ok (c, m)
  DecParamName := fun _ _ => some "arg"
  newEvent := fun c ns vs st => .ok ⟨c, ns, vs, st⟩
  stackTracesMap := some stackGetValue

/-! ## Properties of the argument-decoding loop -/

theorem cursorAfter_shift (ra : Cursor → Except Err (argTag × ArgVal) × Cursor)
    (cur : Cursor) (i : Nat) :
    cursorAfter ra cur (i + 1) = cursorAfter ra (ra cur).2 i := by
  induction i with
  | zero => rfl
  | succ i ih =>
    show (ra (cursorAfter ra cur (i + 1))).2 = (ra (cursorAfter ra (ra cur).2 i)).2
    rw [ih]

theorem slotRes_shift (ra : Cursor → Except Err (argTag × ArgVal) × Cursor)
    (cur : Cursor) (i : Nat) : slotRes ra cur (i + 1) = slotRes ra (ra cur).2 i := by
  simp [slotRes, cursorAfter_shift]

theorem slotTag_shift (ra : Cursor → Except Err (argTag × ArgVal) × Cursor)
    (cur : Cursor) (i : Nat) : slotTag ra cur (i + 1) = slotTag ra (ra cur).2 i := by
  simp [slotTag, slotRes_shift]

theorem slotErr_shift (ra : Cursor → Except Err (argTag × ArgVal) × Cursor)
    (cur : Cursor) (i : Nat) : slotErr ra cur (i + 1) = slotErr ra (ra cur).2 i := by
  simp [slotErr, slotRes_shift]

theorem decodeArgsLoop_tags_errs (ra : Cursor → Except Err (argTag × ArgVal) × Cursor) :
    ∀ (n : Nat) (cur : Cursor) (m : ArgMap),
      (decodeArgsLoop ra n cur m).tags = (List.range n).map (slotTag ra cur) ∧
      (decodeArgsLoop ra n cur m).errs = (List.range n).filterMap (slotErr ra cur) := by
  intro n
  induction n with
  | zero => intro cur m; simp [decodeArgsLoop]
  | succ n ih =>
    intro cur m
    rcases hra : ra cur with ⟨res, cur2⟩
    have htag : ∀ i, slotTag ra cur (i + 1) = slotTag ra cur2 i := by
      intro i; rw [slotTag_shift, hra]
    have herr : ∀ i, slotErr ra cur (i + 1) = slotErr ra cur2 i := by
      intro i; rw [slotErr_shift, hra]
    have htag0 : slotTag ra cur 0 = slotTag ra cur 0 := rfl
    have hres : slotRes ra cur 0 = res := by simp [slotRes, cursorAfter, hra]
    rw [List.range_succ_eq_map]
    cases res with
    | ok tv =>
      rcases tv with ⟨tag, val⟩
      have h1 : slotTag ra cur 0 = tag := by simp [slotTag, hres]
      have h2 : slotErr ra cur 0 = none := by simp [slotErr, hres]
      constructor
      · show (decodeArgsLoop ra (n + 1) cur m).tags = _
        simp only [decodeArgsLoop, hra]
        rw [(ih cur2 (mapInsert m tag val)).1]
        simp [h1, List.map_map]
        exact fun i _ => (htag i).symm
      · show (decodeArgsLoop ra (n + 1) cur m).errs = _
        simp only [decodeArgsLoop, hra]
        rw [(ih cur2 (mapInsert m tag val)).2]
        rw [List.filterMap_cons, h2, List.filterMap_map]
        exact (List.filterMap_congr fun i _ => (herr i).symm)
    | error e =>
      have h1 : slotTag ra cur 0 = 0 := by simp [slotTag, hres]
      have h2 : slotErr ra cur 0 = some e := by simp [slotErr, hres]
      constructor
      · show (decodeArgsLoop ra (n + 1) cur m).tags = _
        simp only [decodeArgsLoop, hra]
        rw [(ih cur2 m).1]
        simp [h1, List.map_map]
        exact fun i _ => (htag i).symm
      · show (decodeArgsLoop ra (n + 1) cur m).errs = _
        simp only [decodeArgsLoop, hra]
        rw [(ih cur2 m).2]
        rw [List.filterMap_cons, h2, List.filterMap_map]
        exact congrArg (e :: ·) (List.filterMap_congr fun i _ => (herr i).symm)

theorem decodeArgsLoop_tags_length (ra : Cursor → Except Err (argTag × ArgVal) × Cursor)
    (n : Nat) (cur : Cursor) (m : ArgMap) :
    (decodeArgsLoop ra n cur m).tags.length = n := by
  rw [(decodeArgsLoop_tags_errs ra n cur m).1]
  simp

theorem mapLookup_append_none (m m2 : ArgMap) (k : argTag)
    (h1 : mapLookup m k = none) (h2 : mapLookup m2 k = none) :
    mapLookup (m ++ m2) k = none := by
  induction m with
  | nil => simpa using h2
  | cons p m ih =>
    rcases p with ⟨k2, v2⟩
    by_cases hk : k = k2
    · simp [mapLookup, hk] at h1
    · simp [mapLookup, hk] at h1 ⊢
      exact ih h1

theorem mapInsert_fresh (m : ArgMap) (k : argTag) (v : ArgVal)
    (h : mapLookup m k = none) : mapInsert m k v = m ++ [(k, v)] := by
  induction m with
  | nil => rfl
  | cons p m ih =>
    rcases p with ⟨k2, v2⟩
    by_cases hk : k = k2
    · simp [mapLookup, hk] at h
    · simp [mapLookup, hk] at h
      simp [mapInsert, hk, ih h]

theorem insertList_fresh :
    ∀ (ps : List (argTag × ArgVal)) (m : ArgMap),
      (∀ p ∈ ps, mapLookup m p.1 = none) → (ps.map Prod.fst).Nodup →
      insertList m ps = m ++ ps := by
  intro ps
  induction ps with
  | nil => intro m _ _; simp [insertList]
  | cons p ps ih =>
    intro m hfresh hnd
    rcases p with ⟨k, v⟩
    have hk : mapLookup m k = none := hfresh (k, v) (List.mem_cons_self _ _)
    have hstep : insertList m ((k, v) :: ps) = insertList (mapInsert m k v) ps := rfl
    rw [hstep, mapInsert_fresh m k v hk]
    have hnd2 : (∀ x : ArgVal, (k, x) ∉ ps) ∧ (ps.map Prod.fst).Nodup := by
      simpa using hnd
    have hfresh2 : ∀ p ∈ ps, mapLookup (m ++ [(k, v)]) p.1 = none := by
      intro p hp
      have hne : p.1 ≠ k := by
        intro heq
        rcases p with ⟨p1, p2⟩
        simp only at heq
        subst heq
        exact hnd2.1 p2 hp
      have hsing : mapLookup [(k, v)] p.1 = none := by simp [mapLookup, hne]
      exact mapLookup_append_none _ _ _ (hfresh p (List.mem_cons_of_mem _ hp)) hsing
    rw [ih (m ++ [(k, v)]) hfresh2 hnd2.2]
    simp

theorem decodeArgsLoop_all_ok (ra : Cursor → Except Err (argTag × ArgVal) × Cursor) :
    ∀ (ts : List argTag) (vs : List ArgVal) (cur : Cursor) (m : ArgMap),
      vs.length = ts.length →
      (∀ i, i < ts.length → (ra (cursorAfter ra cur i)).1 = .ok (ts.getD i 0, vs.getD i 0)) →
      (decodeArgsLoop ra ts.length cur m).tags = ts ∧
      (decodeArgsLoop ra ts.length cur m).args = insertList m (ts.zip vs) ∧
      (decodeArgsLoop ra ts.length cur m).errs = [] := by
  intro ts
  induction ts with
  | nil => intro vs cur m _ _; simp [decodeArgsLoop, insertList]
  | cons tg ts ih =>
    intro vs cur m hlen hok
    rcases vs with _ | ⟨v, vs⟩
    · simp at hlen
    · have h0 : (ra cur).1 = .ok (tg, v) := by
        have := hok 0 (Nat.succ_pos _)
        simpa [cursorAfter] using this
      rcases hra : ra cur with ⟨res, cur2⟩
      rw [hra] at h0
      simp only at h0
      subst h0
      have hok2 : ∀ i, i < ts.length →
          (ra (cursorAfter ra cur2 i)).1 = .ok (ts.getD i 0, vs.getD i 0) := by
        intro i hi
        have := hok (i + 1) (Nat.succ_lt_succ hi)
        rwa [cursorAfter_shift, hra, List.getD_cons_succ, List.getD_cons_succ] at this
      have hlen2 : vs.length = ts.length := by simpa using hlen
      have ihr := ih vs cur2 (mapInsert m tg v) hlen2 hok2
      have hunfold : decodeArgsLoop ra (tg :: ts).length cur m =
          ⟨tg :: (decodeArgsLoop ra ts.length cur2 (mapInsert m tg v)).tags,
           (decodeArgsLoop ra ts.length cur2 (mapInsert m tg v)).args,
           (decodeArgsLoop ra ts.length cur2 (mapInsert m tg v)).errs,
           (decodeArgsLoop ra ts.length cur2 (mapInsert m tg v)).cur⟩ := by
        show decodeArgsLoop ra (ts.length + 1) cur m = _
        simp only [decodeArgsLoop, hra]
      rw [hunfold]
      refine ⟨by simp [ihr.1], ?_, by simp [ihr.2.2]⟩
      show (decodeArgsLoop ra ts.length cur2 (mapInsert m tg v)).args = _
      rw [ihr.2.1]
      rfl

/-! ## Decoder claims -/

/-- Claim C1 counterexample: with a valid header declaring 2 arguments
whose second read fails, the Decoder emits the error but the ordered tag
sequence still has exactly 2 entries, the corrupt slot holding the
zero-valued tag — it is a placeholder, not absent, so the sequence does
not have fewer than N entries. -/
theorem spec_C1_counterexample :
    (cexTracee.readArgFromBuff (cursorAfter cexTracee.readArgFromBuff 0 1)).1 = .error "bad" ∧
    decodeRawEventOne cexTracee 0 = (some ⟨cexCtx, [(5, 7)], [5, 0]⟩, ["bad"]) ∧
    ¬ (([5, 0] : List argTag).length < cexCtx.argnum) := by
  refine ⟨rfl, rfl, by decide⟩

/-- Claim C1 (amended): when the header of a raw buffer decodes
successfully but the k-th tagged argument fails to decode, the Decoder
emits an error for that argument and still produces a Raw Event whose
ordered-tag sequence has exactly N entries, N the header's declared
argument count, the corrupt slot holding the zero-valued tag as a
placeholder; every declared slot j, the ones after the k-th included, is
still attempted from the buffer cursor reached after the previous j
reads. -/
theorem spec_C1 (t : Tracee) (buf : RawBuffer) (ctx : context) (cur : Cursor) (e : Err)
    (k : Nat)
    (hh : t.decodeHeader buf = .ok (ctx, cur))
    (hk : k < ctx.argnum)
    (he : (t.readArgFromBuff (cursorAfter t.readArgFromBuff cur k)).1 = .error e) :
    ((decodeRawEventOne t buf).1.map (fun ev => ev.argsTags.length) = some ctx.argnum) ∧
    ((decodeRawEventOne t buf).1.map (fun ev => ev.argsTags[k]?) = some (some 0)) ∧
    e ∈ (decodeRawEventOne t buf).2 ∧
    (∀ j, j < ctx.argnum →
      (decodeRawEventOne t buf).1.map (fun ev => ev.argsTags[j]?) =
        some (some (slotTag t.readArgFromBuff cur j))) := by
  have hchar := decodeArgsLoop_tags_errs t.readArgFromBuff ctx.argnum cur []
  have hgetj : ∀ j, j < ctx.argnum →
      (decodeArgsLoop t.readArgFromBuff ctx.argnum cur []).tags[j]? =
        some (slotTag t.readArgFromBuff cur j) := by
    intro j hj
    rw [hchar.1, List.getElem?_map, List.getElem?_range hj]
    rfl
  refine ⟨?_, ?_, ?_, ?_⟩
  · simp only [decodeRawEventOne, hh]
    show some ((decodeArgsLoop t.readArgFromBuff ctx.argnum cur []).tags.length) =
      some ctx.argnum
    rw [decodeArgsLoop_tags_length]
  · simp only [decodeRawEventOne, hh]
    show some ((decodeArgsLoop t.readArgFromBuff ctx.argnum cur []).tags[k]?) =
      some (some 0)
    rw [hgetj k hk]
    have hz : slotTag t.readArgFromBuff cur k = 0 := by
      simp [slotTag, slotRes, he]
    rw [hz]
  · simp only [decodeRawEventOne, hh]
    show e ∈ (decodeArgsLoop t.readArgFromBuff ctx.argnum cur []).errs
    rw [hchar.2]
    rw [List.mem_filterMap]
    refine ⟨k, List.mem_range.mpr hk, ?_⟩
    simp [slotErr, slotRes, he]
  · intro j hj
    simp only [decodeRawEventOne, hh]
    show some ((decodeArgsLoop t.readArgFromBuff ctx.argnum cur []).tags[j]?) =
      some (some (slotTag t.readArgFromBuff cur j))
    rw [hgetj j hj]

/-- Claim C1 witness at the concrete scenario of the counterexample. -/
theorem spec_C1_witness :
    ((decodeRawEventOne cexTracee 0).1.map (fun ev => ev.argsTags.length) = some cexCtx.argnum) ∧
    "bad" ∈ (decodeRawEventOne cexTracee 0).2 := by
  have h := spec_C1 cexTracee 0 cexCtx 0 "bad" 1 rfl (by decide) rfl
  exact ⟨h.1, h.2.2.1⟩

/-- Claim C2: a valid raw buffer whose header declares N arguments, all N
of which decode successfully with pairwise distinct tags, yields exactly
one Raw Event whose tag-to-value mapping has exactly N entries and whose
ordered tag sequence is the decoded tags in wire order, with no error. -/
theorem spec_C2 (t : Tracee) (buf : RawBuffer) (ctx : context) (cur : Cursor)
    (ts : List argTag) (vs : List ArgVal)
    (hh : t.decodeHeader buf = .ok (ctx, cur))
    (hts : ts.length = ctx.argnum) (hvs : vs.length = ts.length)
    (hok : ∀ i, i < ts.length →
      (t.readArgFromBuff (cursorAfter t.readArgFromBuff cur i)).1 =
        .ok (ts.getD i 0, vs.getD i 0))
    (hnd : ts.Nodup) :
    decodeRawEventOne t buf = (some ⟨ctx, ts.zip vs, ts⟩, []) ∧
    (ts.zip vs).length = ctx.argnum := by
  have hall := decodeArgsLoop_all_ok t.readArgFromBuff ts vs cur [] hvs hok
  constructor
  · simp only [decodeRawEventOne, hh]
    rw [← hts]
    have hmap : (decodeArgsLoop t.readArgFromBuff ts.length cur []).args = ts.zip vs := by
      rw [hall.2.1]
      have := insertList_fresh (ts.zip vs) [] (fun p _ => rfl) ?_
      · simpa using this
      · rw [List.map_fst_zip ts vs (le_of_eq hvs.symm)]
        exact hnd
    rw [Prod.mk.injEq]
    exact ⟨by rw [hall.1, hmap], hall.2.2⟩
  · rw [List.length_zip, hvs, Nat.min_self, hts]

/-- Claim C2 witness: two arguments, tags 3 and 4, both decode. -/
theorem spec_C2_witness :
    decodeRawEventOne okTracee 0 = (some ⟨okCtx, [(3, 0), (4, 10)], [3, 4]⟩, []) ∧
    ([(3, 0), (4, 10)] : ArgMap).length = okCtx.argnum := by
  have hok : ∀ i, i < ([3, 4] : List argTag).length →
      (okTracee.readArgFromBuff (cursorAfter okTracee.readArgFromBuff 0 i)).1 =
        .ok (([3, 4] : List argTag).getD i 0, ([0, 10] : List ArgVal).getD i 0) := by
    intro i hi
    rcases i with _ | _ | i
    · rfl
    · rfl
    · exact absurd hi (by simp only [List.length_cons, List.length_nil]; omega)
  have h := spec_C2 okTracee 0 okCtx 0 [3, 4] [0, 10] rfl rfl rfl hok (by decide)
  exact ⟨h.1, h.2⟩

/-- The name-resolution loop returns a result (no out-of-range panic)
whenever the remaining tags fit inside the pre-sized arrays. -/
theorem resolveLoop_isSome (table : argTag → Option String) (id : Nat) (m : ArgMap) :
    ∀ (tags : List argTag) (i argnum : Nat),
      i + tags.length ≤ argnum → (resolveLoop table id m tags i argnum).isSome := by
  intro tags
  induction tags with
  | nil => intro i argnum _; simp [resolveLoop]
  | cons tg rest ih =>
    intro i argnum h
    have hi : i < argnum := by
      have : rest.length + 1 = (tg :: rest).length := by simp
      omega
    have hrec := ih (i + 1) argnum (by simp at h ⊢; omega)
    rcases hr : resolveLoop table id m rest (i + 1) argnum with _ | r
    · rw [hr] at hrec; simp at hrec
    · simp only [resolveLoop, if_pos hi, hr]
      cases table tg <;> simp

/-- Claim C8: the decode loop always returns an ordered-tag sequence of
length exactly the declared argument count; every Raw Event the Decoder
emits satisfies `argsTags.length = ctx.argnum`; and the Print Preparer's
index-aligned array construction returns a result (never indexes out of
range) whenever the tag sequence length equals the declared count. -/
theorem spec_C8 :
    (∀ (ra : Cursor → Except Err (argTag × ArgVal) × Cursor) (n : Nat) (cur : Cursor)
        (m : ArgMap), (decodeArgsLoop ra n cur m).tags.length = n) ∧
    (∀ (t : Tracee) (buf : RawBuffer) (ev : RawEvent) (errs : List Err),
      decodeRawEventOne t buf = (some ev, errs) → ev.argsTags.length = ev.ctx.argnum) ∧
    (∀ (table : argTag → Option String) (id argnum : Nat) (tags : List argTag) (m : ArgMap),
      tags.length = argnum → (buildArgs table id argnum tags m).isSome) := by
  refine ⟨decodeArgsLoop_tags_length, ?_, ?_⟩
  · intro t buf ev errs h
    rcases hh : t.decodeHeader buf with e | p
    · simp [decodeRawEventOne, hh] at h
    · rcases p with ⟨ctx, cur⟩
      simp only [decodeRawEventOne, hh] at h
      have h1 := congrArg Prod.fst h
      simp only at h1
      have h2 := Option.some.inj h1
      rw [← h2]
      simp [decodeArgsLoop_tags_length]
  · intro table id argnum tags m hlen
    have := resolveLoop_isSome table id m tags 0 argnum (by omega)
    rcases hr : resolveLoop table id m tags 0 argnum with _ | r
    · rw [hr] at this; simp at this
    · simp [buildArgs, hr]

/-- Claim C8 witness: the event emitted for the corrupt buffer of the C1
scenario has a tag sequence of the declared length, and the preparer's
construction succeeds on a matching tag sequence. -/
theorem spec_C8_witness :
    ((⟨cexCtx, [(5, 7)], [5, 0]⟩ : RawEvent).argsTags.length =
      (⟨cexCtx, [(5, 7)], [5, 0]⟩ : RawEvent).ctx.argnum) ∧
    (buildArgs (fun _ => some "arg") 1 2 [5, 0] [(5, 7)]).isSome := by
  exact ⟨spec_C8.2.1 cexTracee 0 _ ["bad"] rfl,
    spec_C8.2.2 (fun _ => some "arg") 1 2 [5, 0] [(5, 7)] rfl⟩

/-! ## Filter/Processor and name-table claims -/

/-- Claim C4: the name table the Print Preparer consults is selected
solely by the parity of the event identifier — two contexts whose
identifiers agree modulo 2 select the same table, whatever their other
fields. -/
theorem spec_C4 (t : Tracee) (c1 c2 : context) (h : c1.eventID % 2 = c2.eventID % 2) :
    selectNameTable t c1 = selectNameTable t c2 := by
  unfold selectNameTable
  rw [h]

/-- Claim C4 witness: identifiers 4 and 20 (same parity, every other
context field different) select the same table. -/
theorem spec_C4_witness :
    selectNameTable missTracee okCtx = selectNameTable missTracee ctxEven :=
  spec_C4 missTracee okCtx ctxEven rfl

/-- Claim C7: the Filter/Processor drops predicate-rejected events
silently without invoking the mutation hook; for accepted events the hook
runs exactly once; a hook failure is emitted on the error stream and the
event is not forwarded. -/
theorem spec_C7 (t : Tracee) (ev : RawEvent) :
    (t.shouldProcessEvent ev = false → processRawEventOne t ev = (none, [], 0)) ∧
    (t.shouldProcessEvent ev = true → (processRawEventOne t ev).2.2 = 1) ∧
    (∀ e, t.shouldProcessEvent ev = true → t.processEvent ev.ctx ev.rawArgs = .error e →
      (processRawEventOne t ev).1 = none ∧ (processRawEventOne t ev).2.1 = [e]) := by
  refine ⟨?_, ?_, ?_⟩
  · intro h
    simp [processRawEventOne, h]
  · intro h
    simp only [processRawEventOne, h, if_true]
    rcases hpe : t.processEvent ev.ctx ev.rawArgs with e | p
    · simp
    · rcases p with ⟨c2, m2⟩; simp
  · intro e h hpe
    simp [processRawEventOne, h, hpe]

/-- Claim C7 witness: a failing hook, a rejecting predicate, and an
accepting predicate, each at a concrete event. -/
theorem spec_C7_witness :
    ((processRawEventOne hookFailTracee ev5).1 = none ∧
      (processRawEventOne hookFailTracee ev5).2.1 = ["boom"]) ∧
    processRawEventOne dropTracee ev5 = (none, [], 0) ∧
    (processRawEventOne missTracee ev5).2.2 = 1 :=
  ⟨(spec_C7 hookFailTracee ev5).2.2 "boom" rfl rfl,
   (spec_C7 dropTracee ev5).1 rfl,
   (spec_C7 missTracee ev5).2.1 rfl⟩

/-! ## Stack-trace resolver claims -/

theorem commaJoin_nonempty (w : Nat) (ws : List Nat) :
    commaJoin (w :: ws) = commaIntercalate ((w :: ws).map renderWord) ++ [','] := by
  induction ws generalizing w with
  | nil => simp [commaJoin, commaIntercalate]
  | cons w2 rest ih =>
    have hstep : commaJoin (w :: w2 :: rest) = (renderWord w ++ [',']) ++ commaJoin (w2 :: rest) := by
      simp [commaJoin]
    rw [hstep, ih w2]
    simp [commaIntercalate, List.append_assoc]

theorem trimSuffixComma_concat (l : List Char) : trimSuffixComma (l ++ [',']) = l := by
  simp [trimSuffixComma, List.getLast?_concat, List.dropLast_concat]

theorem renderStack_eq (ws : List Nat) :
    renderStack ws = String.mk (commaIntercalate (ws.map renderWord)) := by
  cases ws with
  | nil => rfl
  | cons w ws =>
    rw [renderStack, commaJoin_nonempty, trimSuffixComma_concat]

theorem length_encodeWord (w : Nat) : (encodeWord w).length = 8 := rfl

theorem length_encodeWords (ws : List Nat) : (encodeWords ws).length = 8 * ws.length := by
  induction ws with
  | nil => rfl
  | cons w ws ih =>
    have hsplit : encodeWords (w :: ws) = encodeWord w ++ encodeWords ws := by
      simp [encodeWords]
    rw [hsplit, List.length_append, length_encodeWord, ih, List.length_cons]
    ring

theorem leUint64_encodeWord (w : Nat) (h : w < 18446744073709551616) :
    leUint64 (encodeWord w) = some w := by
  have e2 : w / 65536 = w / 256 / 256 := by rw [Nat.div_div_eq_div_mul]
  have e3 : w / 16777216 = w / 65536 / 256 := by rw [Nat.div_div_eq_div_mul]
  have e4 : w / 4294967296 = w / 16777216 / 256 := by rw [Nat.div_div_eq_div_mul]
  have e5 : w / 1099511627776 = w / 4294967296 / 256 := by rw [Nat.div_div_eq_div_mul]
  have e6 : w / 281474976710656 = w / 1099511627776 / 256 := by rw [Nat.div_div_eq_div_mul]
  have e7 : w / 72057594037927936 = w / 281474976710656 / 256 := by
    rw [Nat.div_div_eq_div_mul]
  simp only [leUint64, encodeWord, List.length_cons, List.length_nil, List.getD_cons_zero,
    List.getD_cons_succ]
  rw [if_neg (by omega)]
  rw [Option.some_inj]
  rw [e2, e3, e4, e5, e6, e7]
  omega

theorem stackStep_encode (w : Nat) (rest : List Nat) (h : w < 18446744073709551616) :
    stackStep 8 (encodeWord w ++ rest) = some w := by
  have hlen : (encodeWord w ++ rest).length = 8 + rest.length := by
    rw [List.length_append, length_encodeWord]
  have htake : (encodeWord w ++ rest).take 8 = encodeWord w := by
    have := List.take_left (encodeWord w) rest
    rwa [length_encodeWord] at this
  have hnotlt : ¬ (encodeWord w ++ rest).length < 8 := by rw [hlen]; omega
  unfold stackStep
  rw [if_neg hnotlt, htake, leUint64_encodeWord w h]

theorem stackWordsAux_encode :
    ∀ (ws : List Nat) (fuel : Nat), ws.length ≤ fuel →
      (∀ w ∈ ws, w < 18446744073709551616) →
      stackWordsAux 8 fuel (encodeWords ws) = some (ws.takeWhile (fun w => w != 0)) := by
  intro ws
  induction ws with
  | nil =>
    intro fuel _ _
    cases fuel <;> rfl
  | cons w ws ih =>
    intro fuel hfuel hlt
    cases fuel with
    | zero => simp at hfuel
    | succ f =>
      have hsplit : encodeWords (w :: ws) = encodeWord w ++ encodeWords ws := by
        simp [encodeWords]
      have hne : encodeWords (w :: ws) ≠ [] := by
        rw [hsplit]
        simp [encodeWord]
      have hw : w < 18446744073709551616 := hlt w (List.mem_cons_self _ _)
      have hstep : stackStep 8 (encodeWords (w :: ws)) = some w := by
        rw [hsplit]
        exact stackStep_encode w _ hw
      have hdrop : (encodeWords (w :: ws)).drop 8 = encodeWords ws := by
        rw [hsplit]
        have := List.drop_left (encodeWord w) (encodeWords ws)
        rwa [length_encodeWord] at this
      show stackWordsAux 8 (f + 1) (encodeWords (w :: ws)) = _
      simp only [stackWordsAux]
      rw [if_neg hne]
      simp only [hstep]
      by_cases h0 : w = 0
      · subst h0
        simp [List.takeWhile_cons]
      · rw [if_neg h0, hdrop]
        have hf : ws.length ≤ f := by
          simp only [List.length_cons] at hfuel
          omega
        rw [ih f hf (fun x hx => hlt x (List.mem_cons_of_mem _ hx))]
        simp [List.takeWhile_cons, h0]

theorem stackWords_encode (ws : List Nat) (h : ∀ w ∈ ws, w < 18446744073709551616) :
    stackWords 8 (encodeWords ws) = some (ws.takeWhile (fun w => w != 0)) := by
  apply stackWordsAux_encode ws (encodeWords ws).length ?_ h
  rw [length_encodeWords]
  omega

/-- Claim C5: on a 64-bit platform the Stack-Trace Resolver decodes
consecutive little-endian 8-byte words, stops at the first zero word or
the end of the bounded buffer, and renders the preceding non-zero words
as `0x` followed by uppercase hexadecimal, comma-separated with no
trailing comma; in particular the words 0x10, 0x20, 0x00, 0x30 render as
"0x10,0x20", and 26 renders with an uppercase digit as "0x1A". -/
theorem spec_C5 :
    (∀ ws : List Nat, (∀ w ∈ ws, w < 18446744073709551616) →
      resolveStackBytes 8 (encodeWords ws) =
        some (String.mk (commaIntercalate
          ((ws.takeWhile (fun w => w != 0)).map renderWord)))) ∧
    resolveStackBytes 8 (encodeWords [16, 32, 0, 48]) = some "0x10,0x20" ∧
    resolveStackBytes 8 (encodeWords [26]) = some "0x1A" := by
  refine ⟨?_, by decide, by decide⟩
  intro ws h
  unfold resolveStackBytes
  rw [stackWords_encode ws h]
  simp [renderStack_eq]

/-- Claim C5 witness: the concrete rendering obtained through the general
statement. -/
theorem spec_C5_witness :
    resolveStackBytes 8 (encodeWords [16, 32, 0, 48]) =
      some (String.mk (commaIntercalate
        (([16, 32, 0, 48].takeWhile (fun w => w != 0)).map renderWord))) :=
  spec_C5.1 [16, 32, 0, 48] (by decide)

/-- Claim C6: a missing stack-traces table and a missing stack identifier
both yield the empty string with a nil error, and no invocation of
`getStackTrace` ever returns a non-nil error. -/
theorem spec_C6 (t : Tracee) (intSize sid : Nat) :
    (t.stackTracesMap = none → getStackTrace t intSize sid = some ("", none)) ∧
    (∀ gv, t.stackTracesMap = some gv → gv sid (intSize / 8 * 20) = none →
      getStackTrace t intSize sid = some ("", none)) ∧
    (∀ s e, getStackTrace t intSize sid = some (s, e) → e = none) := by
  refine ⟨?_, ?_, ?_⟩
  · intro h
    simp [getStackTrace, h]
  · intro gv h1 h2
    simp [getStackTrace, h1, h2]
  · intro s e h
    rcases hm : t.stackTracesMap with _ | gv
    · simp [getStackTrace, hm] at h
      exact h.2.symm
    · rcases hv : gv sid (intSize / 8 * 20) with _ | bs
      · simp [getStackTrace, hm, hv] at h
        exact h.2.symm
      · rcases hr : resolveStackBytes (intSize / 8) bs with _ | str
        · simp [getStackTrace, hm, hv, hr] at h
        · simp [getStackTrace, hm, hv, hr] at h
          exact h.2.symm

/-- Claim C6 witness: a failing `GetMap` and a missing key, both on
64-bit, each produce the empty trace with a nil error. -/
theorem spec_C6_witness :
    getStackTrace missTracee 64 0 = some ("", none) ∧
    getStackTrace stackTracee 64 0 = some ("", none) :=
  ⟨(spec_C6 missTracee 64 0).1 rfl,
   (spec_C6 stackTracee 64 0).2.1 stackGetValue rfl rfl⟩

theorem stackWordsAux_total (fuel : Nat) :
    ∀ bs : List Nat, bs.length ≤ fuel → 8 ∣ bs.length → (stackWordsAux 8 fuel bs).isSome := by
  induction fuel with
  | zero =>
    intro bs h _
    have hnil : bs = [] := List.eq_nil_of_length_eq_zero (Nat.le_zero.mp h)
    simp [stackWordsAux, hnil]
  | succ f ih =>
    intro bs h hd
    by_cases hbs : bs = []
    · simp [stackWordsAux, hbs]
    · have hne : bs.length ≠ 0 := fun hz => hbs (List.eq_nil_of_length_eq_zero hz)
      have hlen8 : 8 ≤ bs.length := by
        rcases hd with ⟨c, hc⟩
        omega
      have htlen : (bs.take 8).length = 8 := by
        rw [List.length_take]
        omega
      have hstep : (stackStep 8 bs).isSome := by
        unfold stackStep
        rw [if_neg (by omega)]
        unfold leUint64
        rw [if_neg (by omega)]
        rfl
      rcases ha : stackStep 8 bs with _ | a
      · rw [ha] at hstep
        simp at hstep
      · simp only [stackWordsAux]
        rw [if_neg hbs]
        simp only [ha]
        by_cases h0 : a = 0
        · simp [h0]
        · rw [if_neg h0]
          have hrec : (stackWordsAux 8 f (bs.drop 8)).isSome := by
            apply ih
            · rw [List.length_drop]
              omega
            · rw [List.length_drop]
              rcases hd with ⟨c, hc⟩
              exact ⟨c - 1, by omega⟩
          rcases hx : stackWordsAux 8 f (bs.drop 8) with _ | ws
          · rw [hx] at hrec
            simp at hrec
          · simp [hx]

/-- Claim C9: the stack-trace decode loop is total on 8-byte words (any
buffer whose length is a multiple of 8 decodes to a result), but with a
word size below 8 bytes the 64-bit read panics on any non-empty buffer,
so on a 32-bit platform a successful lookup of a non-empty stack buffer
makes `getStackTrace` panic instead of returning a trace string. -/
theorem spec_C9 :
    (∀ bs : List Nat, 8 ∣ bs.length → (stackWords 8 bs).isSome) ∧
    (∀ (fs : Nat) (bs : List Nat), fs < 8 → bs ≠ [] → stackWords fs bs = none) ∧
    (∀ (t : Tracee) (gv : Nat → Nat → Option (List Nat)) (sid : Nat) (bs : List Nat),
      t.stackTracesMap = some gv → gv sid 80 = some bs → bs ≠ [] →
      getStackTrace t 32 sid = none) := by
  have hb : ∀ (fs : Nat) (bs : List Nat), fs < 8 → bs ≠ [] → stackWords fs bs = none := by
    intro fs bs hfs hbs
    rcases bs with _ | ⟨b, tl⟩
    · exact absurd rfl hbs
    · have hstep : stackStep fs (b :: tl) = none := by
        unfold stackStep
        by_cases hl : (b :: tl).length < fs
        · rw [if_pos hl]
        · rw [if_neg hl]
          unfold leUint64
          rw [if_pos ?_]
          rw [List.length_take]
          omega
      show stackWordsAux fs (b :: tl).length (b :: tl) = none
      simp only [List.length_cons, stackWordsAux]
      rw [if_neg (by simp), hstep]
  refine ⟨?_, hb, ?_⟩
  · intro bs hd
    exact stackWordsAux_total bs.length bs le_rfl hd
  · intro t gv sid bs hm hv hbs
    have hwords : stackWords 4 bs = none := hb 4 bs (by omega) hbs
    have hres : resolveStackBytes 4 bs = none := by
      unfold resolveStackBytes
      rw [hwords]
      rfl
    simp [getStackTrace, hm, hv, hres]

/-- Claim C9 witness: the 80-byte buffer of a 32-bit platform panics
under the 4-byte step, the 32-byte 64-bit buffer decodes, and the full
resolver panics on the 32-bit lookup hit. -/
theorem spec_C9_witness :
    stackWords 4 (List.replicate 80 1) = none ∧
    (stackWords 8 (encodeWords [16, 32, 0, 48])).isSome ∧
    getStackTrace stackTracee 32 2 = none :=
  ⟨spec_C9.2.1 4 (List.replicate 80 1) (by omega) (by decide),
   spec_C9.1 (encodeWords [16, 32, 0, 48]) (by decide),
   spec_C9.2.2 stackTracee stackGetValue 2 (List.replicate 80 1) rfl rfl (by decide)⟩

/-! ## Print Preparer claims -/

theorem resolveLoop_spec (table : argTag → Option String) (id : Nat) (m : ArgMap) :
    ∀ (tags : List argTag) (i argnum : Nat), i + tags.length ≤ argnum →
      resolveLoop table id m tags i argnum =
        some ⟨tags.map (fun tg => mapLookup m tg),
              tags.map (fun tg => (table tg).getD ""),
              tags.filterMap (fun tg =>
                match table tg with
                | some _ => none
                | none => some (invalidTagMsg id))⟩ := by
  intro tags
  induction tags with
  | nil => intro i argnum _; simp [resolveLoop]
  | cons tg rest ih =>
    intro i argnum h
    have hi : i < argnum := by simp only [List.length_cons] at h; omega
    have hrec := ih (i + 1) argnum (by simp only [List.length_cons] at h; omega)
    simp only [resolveLoop, if_pos hi, hrec]
    rcases ht : table tg with _ | nm
    · simp [List.filterMap_cons, ht]
    · simp [List.filterMap_cons, ht]

theorem buildArgs_spec (table : argTag → Option String) (id : Nat) (tags : List argTag)
    (m : ArgMap) :
    buildArgs table id tags.length tags m =
      some ⟨tags.map (fun tg => mapLookup m tg),
            tags.map (fun tg => (table tg).getD ""),
            tags.filterMap (fun tg =>
              match table tg with
              | some _ => none
              | none => some (invalidTagMsg id))⟩ := by
  unfold buildArgs
  rw [resolveLoop_spec table id m tags 0 tags.length (by omega)]
  simp

/-- Claim C3 counterexample: at a concrete unresolvable tag the error the
Print Preparer emits is "Invalid arg tag for event 5"; no error with the
claimed text "invalid argument tag for event 5" is emitted. -/
theorem spec_C3_counterexample :
    prepareEventForPrintOne missTracee 64 ev5 =
      some (some ⟨ctx5, ["good", ""], [some 10, some 20], ""⟩,
        ["Invalid arg tag for event 5"]) ∧
    "invalid argument tag for event 5" ∉ ["Invalid arg tag for event 5"] := by
  refine ⟨rfl, by decide⟩

/-- Claim C3 (amended): for an inbound event that passes the print
predicate and the formatting hook, an unresolvable tag in the ordered tag
sequence makes the Print Preparer emit the error
"Invalid arg tag for event <id>" for that tag, continue the
name-resolution loop over the remaining tags (resolvable slots still get
their names), leave the unresolvable slot's name at the empty string, and
still construct and forward the Final Event. -/
theorem spec_C3 (t : Tracee) (intSize : Nat) (ev : RawEvent) (ctx2 : context) (m2 : ArgMap)
    (i : Nat) (r : BuildRes) (st : String) (e0 : Option Err) (evt : Event)
    (hsp : t.shouldPrintEvent ev = true)
    (hprep : t.prepareArgsForPrint ev.ctx ev.rawArgs = .ok (ctx2, m2))
    (hlen : ev.argsTags.length = ctx2.argnum)
    (hi : i < ev.argsTags.length)
    (hmiss : selectNameTable t ctx2 (ev.argsTags.getD i 0) = none)
    (hres : buildArgs (selectNameTable t ctx2) ctx2.eventID ctx2.argnum ev.argsTags m2 = some r)
    (hst : getStackTrace t intSize ctx2.stackID = some (st, e0))
    (hnew : t.newEvent ctx2 r.names r.args st = .ok evt) :
    prepareEventForPrintOne t intSize ev = some (some evt, r.errs) ∧
    invalidTagMsg ctx2.eventID ∈ r.errs ∧
    r.names[i]? = some "" ∧
    r.names.length = ctx2.argnum ∧
    (∀ j nm, j < ev.argsTags.length →
      selectNameTable t ctx2 (ev.argsTags.getD j 0) = some nm → r.names[j]? = some nm) := by
  have hchar : r = ⟨ev.argsTags.map (fun tg => mapLookup m2 tg),
      ev.argsTags.map (fun tg => ((selectNameTable t ctx2) tg).getD ""),
      ev.argsTags.filterMap (fun tg =>
        match selectNameTable t ctx2 tg with
        | some _ => none
        | none => some (invalidTagMsg ctx2.eventID))⟩ := by
    rw [← hlen] at hres
    rw [buildArgs_spec] at hres
    exact (Option.some.inj hres).symm
  have hgetD : ∀ j, j < ev.argsTags.length → ev.argsTags[j]? = some (ev.argsTags.getD j 0) := by
    intro j hj
    rw [List.getElem?_eq_getElem hj, List.getD_eq_getElem _ _ hj]
  refine ⟨?_, ?_, ?_, ?_, ?_⟩
  · simp [prepareEventForPrintOne, hsp, hprep, hres, hst, hnew]
  · rw [hchar]
    simp only
    rw [List.mem_filterMap]
    refine ⟨ev.argsTags.getD i 0, ?_, ?_⟩
    · have hmem : ev.argsTags[i] ∈ ev.argsTags := List.getElem_mem hi
      rwa [← List.getD_eq_getElem _ 0 hi] at hmem
    · rw [hmiss]
  · rw [hchar]
    simp only
    rw [List.getElem?_map, hgetD i hi, Option.map_some']
    rw [hmiss]
    rfl
  · rw [hchar]
    simp [hlen]
  · intro j nm hj hsm
    rw [hchar]
    simp only
    rw [List.getElem?_map, hgetD j hj, Option.map_some']
    rw [hsm]
    rfl

/-- Claim C3 witness at the concrete scenario of the counterexample. -/
theorem spec_C3_witness :
    prepareEventForPrintOne missTracee 64 ev5 =
      some (some ⟨ctx5, ["good", ""], [some 10, some 20], ""⟩,
        ["Invalid arg tag for event 5"]) ∧
    invalidTagMsg ctx5.eventID ∈ (["Invalid arg tag for event 5"] : List Err) := by
  have h := spec_C3 missTracee 64 ev5 ctx5 ev5.rawArgs 1
    ⟨[some 10, some 20], ["good", ""], ["Invalid arg tag for event 5"]⟩ "" none
    ⟨ctx5, ["good", ""], [some 10, some 20], ""⟩ rfl rfl rfl (by decide) rfl rfl rfl rfl
  exact ⟨h.1, h.2.1⟩

/-! ## Pipeline order preservation -/

theorem decodeRawEvent_events (t : Tracee) :
    ∀ bufs : List RawBuffer,
      (decodeRawEvent t bufs).1 = bufs.filterMap (fun b => (decodeRawEventOne t b).1) := by
  intro bufs
  induction bufs with
  | nil => rfl
  | cons b bs ih =>
    show (decodeRawEventOne t b).1.toList ++ (decodeRawEvent t bs).1 = _
    rw [ih, List.filterMap_cons]
    cases h : (decodeRawEventOne t b).1 <;> simp [h]

theorem processRawEvent_events (t : Tracee) :
    ∀ evs : List RawEvent,
      (processRawEvent t evs).1 = evs.filterMap (fun ev => (processRawEventOne t ev).1) := by
  intro evs
  induction evs with
  | nil => rfl
  | cons ev evs ih =>
    show (processRawEventOne t ev).1.toList ++ (processRawEvent t evs).1 = _
    rw [ih, List.filterMap_cons]
    cases h : (processRawEventOne t ev).1 <;> simp [h]

theorem prepareEventForPrint_events (t : Tracee) (intSize : Nat) :
    ∀ (evs : List RawEvent) (pr : List Event × List Err),
      prepareEventForPrint t intSize evs = some pr →
      pr.1 = evs.filterMap (prepOut t intSize) := by
  intro evs
  induction evs with
  | nil =>
    intro pr h
    have h2 := Option.some.inj h
    rw [← h2]
    rfl
  | cons ev evs ih =>
    intro pr h
    rcases hone : prepareEventForPrintOne t intSize ev with _ | ⟨oe, es⟩
    · simp only [prepareEventForPrint, hone] at h
      exact Option.noConfusion h
    · simp only [prepareEventForPrint, hone] at h
      rcases hrest : prepareEventForPrint t intSize evs with _ | pr2
      · rw [hrest] at h
        simp at h
      · rw [hrest] at h
        simp only at h
        have h2 := Option.some.inj h
        rw [← h2]
        simp only
        rw [List.filterMap_cons]
        have hpre : prepOut t intSize ev = oe := by simp [prepOut, hone]
        rw [ih pr2 hrest, hpre]
        cases oe <;> simp

theorem runEventPipeline_filterMap (t : Tracee) (intSize : Nat) (bufs : List RawBuffer)
    (out : List Event) (h : runEventPipeline t intSize bufs = some out) :
    out = bufs.filterMap (stepEvent t intSize) := by
  unfold runEventPipeline at h
  rcases hp : prepareEventForPrint t intSize
      (processRawEvent t (decodeRawEvent t bufs).1).1 with _ | pr
  · rw [hp] at h
    simp at h
  · rw [hp] at h
    simp only [Option.map_some'] at h
    have h1 := prepareEventForPrint_events t intSize _ pr hp
    have h2 := processRawEvent_events t (decodeRawEvent t bufs).1
    have h3 := decodeRawEvent_events t bufs
    have h4 := Option.some.inj h
    rw [← h4, h1, h2, h3]
    rw [List.filterMap_filterMap, List.filterMap_filterMap]
    rfl

/-- Claim C10: two raw buffers decoded in this order, both of which
survive every stage, are rendered in the same order by the Sink; the
events the pipeline renders for the whole stream are exactly the
survivors in decode order, so dropped events do not disturb the relative
order of the surviving ones. -/
theorem spec_C10 (t : Tracee) (intSize : Nat) (p q r : List RawBuffer) (a b : RawBuffer)
    (ea eb : Event) (out : List Event)
    (ha : stepEvent t intSize a = some ea) (hb : stepEvent t intSize b = some eb)
    (hrun : runEventPipeline t intSize (p ++ a :: q ++ b :: r) = some out) :
    out = p.filterMap (stepEvent t intSize) ++
      ea :: (q.filterMap (stepEvent t intSize) ++
        eb :: r.filterMap (stepEvent t intSize)) := by
  rw [runEventPipeline_filterMap t intSize _ out hrun]
  simp [List.filterMap_append, List.filterMap_cons, ha, hb]

/-- Claim C10 witness: a two-buffer stream, both events surviving, is
rendered in decode order. -/
theorem spec_C10_witness :
    runEventPipeline pipeTracee 64 [0, 1] = some [pipeEvt 0, pipeEvt 1] ∧
    [pipeEvt 0, pipeEvt 1] =
      ([] : List RawBuffer).filterMap (stepEvent pipeTracee 64) ++
        pipeEvt 0 :: (([] : List RawBuffer).filterMap (stepEvent pipeTracee 64) ++
          pipeEvt 1 :: ([] : List RawBuffer).filterMap (stepEvent pipeTracee 64)) :=
  ⟨rfl, spec_C10 pipeTracee 64 [] [] [] 0 1 (pipeEvt 0) (pipeEvt 1)
    [pipeEvt 0, pipeEvt 1] rfl rfl rfl⟩
